import Mathlib

/-!
# Verification of the Ocrevus pixel-tracker (`tracker_app.py`)

Shallow embedding of the three Flask handlers of `tracker_app.py`:

* `trackPixel` embeds `track_pixel` (route `/pixel/<tracking_id>.png`),
* `viewStatsResult` / `viewStatsOk` embed `view_stats` (route `/stats`),
* `home` embeds the health handler (route `/`).

The log file is modelled as `Option String` (`none` = the file does not
exist).  Python string primitives used by the source (`str.strip`,
`str.split('|')`, `file.readlines`, slicing, universal-newline
translation of text-mode reads) are embedded as executable functions on
`List Char` / `String` below.  Machine floats appear only in the
`:.1f` formatting of the open rate; that formatting is embedded as exact
rational rounding (`fmtRate`), and the rate value itself as `openRateQ`.
-/

namespace Tracker

/-! ## Python string primitives -/

/-- The characters removed by Python `str.strip()`: exactly the 29 code
points with `str.isspace()` true — the ASCII whitespace `\t\n\v\f\r`
and space, the control separators U+001C-U+001F, U+0085 (NEL), U+00A0
(NBSP), U+1680, the U+2000-U+200A space block, the line and paragraph
separators U+2028/U+2029, and U+202F, U+205F, U+3000. -/
def isPySpace (c : Char) : Bool :=
  c = '\t' || c = '\n' || c = '\x0b' || c = '\x0c' ||
  c = '\r' || c = '\x1c' || c = '\x1d' || c = '\x1e' ||
  c = '\x1f' || c = ' ' || c = '\x85' || c = '\xa0' ||
  c = '\u1680' || c = '\u2000' || c = '\u2001' || c = '\u2002' ||
  c = '\u2003' || c = '\u2004' || c = '\u2005' || c = '\u2006' ||
  c = '\u2007' || c = '\u2008' || c = '\u2009' || c = '\u200a' ||
  c = '\u2028' || c = '\u2029' || c = '\u202f' || c = '\u205f' ||
  c = '\u3000'

/-- Python `str.strip()` on the character list. -/
def pyStripList (l : List Char) : List Char :=
  ((l.dropWhile isPySpace).reverse.dropWhile isPySpace).reverse

/-- Python `str.strip()`. -/
def pyStrip (s : String) : String :=
  String.mk (pyStripList s.toList)

/-- Python `str.split(sep)` for a one-character separator, on character
lists: `"a||b".split('|') = ['a', '', 'b']`, `"".split('|') = ['']`. -/
def pySplitChar (sep : Char) : List Char → List (List Char)
  | [] => [[]]
  | c :: rest =>
    if c = sep then
      [] :: pySplitChar sep rest
    else
      match pySplitChar sep rest with
      | [] => [[c]]
      | g :: gs => (c :: g) :: gs

/-- Python `str.split(sep)` for a one-character separator. -/
def pySplit (s : String) (sep : Char) : List String :=
  (pySplitChar sep s.toList).map String.mk

/-- Universal-newline translation performed by text-mode reads in Python
(`open(..., encoding='utf-8')` defaults to `newline=None`): `"\r\n"` and
lone `"\r"` both become `"\n"`. -/
def univNL : List Char → List Char
  | [] => []
  | '\r' :: '\n' :: rest => '\n' :: univNL rest
  | '\r' :: rest => '\n' :: univNL rest
  | c :: rest => c :: univNL rest

/-- Reassemble the chunks of a split on `'\n'` the way Python
`readlines` presents them: every chunk but the last gets its `'\n'`
back, and a final empty chunk (content ended in a newline) disappears. -/
def rejoinLines : List (List Char) → List (List Char)
  | [] => []
  | [x] => if x = [] then [] else [x]
  | x :: xs => (x ++ ['\n']) :: rejoinLines xs

/-- Python `f.readlines()` on the raw file content: universal-newline
translation, then split into lines that keep their trailing `'\n'`. -/
def pyReadlines (c : String) : List String :=
  (rejoinLines (pySplitChar '\n' (univNL c.toList))).map String.mk

/-- Python slicing `s[:n]` (by code point, as Lean chars are). -/
def pyTake (n : Nat) (s : String) : String :=
  String.mk (s.toList.take n)

/-! ## The pixel payload

`PIXEL_DATA = base64.b64decode('iVBOR...')` — embedded with an
executable base64 decoder applied to the source's literal. -/

/-- Value of a base64 alphabet character; `none` for padding `'='` (and
anything else). -/
def b64val (c : Char) : Option Nat :=
  if 'A' ≤ c ∧ c ≤ 'Z' then some (c.toNat - 'A'.toNat)
  else if 'a' ≤ c ∧ c ≤ 'z' then some (c.toNat - 'a'.toNat + 26)
  else if '0' ≤ c ∧ c ≤ '9' then some (c.toNat - '0'.toNat + 52)
  else if c = '+' then some 62
  else if c = '/' then some 63
  else none

/-- Standard base64 decoding of a well-formed literal (groups of four
characters, `'='` padding at the end). -/
def b64decode : List Char → List Nat
  | c1 :: c2 :: c3 :: c4 :: rest =>
    match b64val c1, b64val c2, b64val c3, b64val c4 with
    | some a, some b, some c, some d =>
      (a * 4 + b / 16) :: ((b % 16) * 16 + c / 4) :: ((c % 4) * 64 + d) ::
        b64decode rest
    | some a, some b, some c, none =>
      [a * 4 + b / 16, (b % 16) * 16 + c / 4]
    | some a, some b, none, none => [a * 4 + b / 16]
    | _, _, _, _ => []
  | _ => []

/-- The 1×1 transparent PNG served by every pixel request
(`PIXEL_DATA` in the source). -/
def PIXEL_DATA : List Nat :=
  b64decode
    "iVBORw0KGgoAAAANSUhEUgAAAAEAAAABCAQAAAC1HAwCAAAAC0lEQVR42mNk+A8AAQUBAScY42YAAAAASUVORK5CYII=".toList

/-! ## Data model -/

/-- One parsed open event (the dict built in `view_stats`). -/
structure Record where
  timestamp : String
  tracking_id : String
  ip : String
  user_agent : String
deriving DecidableEq, Repr

/-- Embeds `line.strip().split('|')`: keep the line iff it has at least four
parts, taking the first four as the record (`view_stats`, lines 61-69). -/
def parseLine (line : String) : Option Record :=
  let parts := pySplit (pyStrip line) '|'
  if h : 4 ≤ parts.length then
    some ⟨parts.get ⟨0, by omega⟩, parts.get ⟨1, by omega⟩,
          parts.get ⟨2, by omega⟩, parts.get ⟨3, by omega⟩⟩
  else
    none

/-- The `opens = []; for line in lines: ... opens.append(...)` loop. -/
def parseOpens (lines : List String) : List Record :=
  lines.foldl
    (fun acc line =>
      match parseLine line with
      | some r => acc ++ [r]
      | none => acc)
    []

/-- Records parsed from raw log-file content. -/
def parseContent (c : String) : List Record :=
  parseOpens (pyReadlines c)

/-- Embeds `total_opens = len(opens)`. -/
def totalOpens (c : String) : Nat :=
  (parseContent c).length

/-- Embeds `unique_emails = len(set(o['tracking_id'] for o in opens))`. -/
def uniqueEmails (c : String) : Nat :=
  ((parseContent c).map Record.tracking_id).dedup.length

/-- The exact value of `total_opens / unique_emails * 100` (the Python
expression computes it in double precision; the claims are stated over
its exact rational value). -/
def openRateQ (total unique : Nat) : ℚ :=
  (total : ℚ) / (unique : ℚ) * 100

/-- Embedding of the `:.1f` formatting of the open rate: round
`total/unique*100` to one decimal place, ties to even (assumes
`unique ≠ 0`; the zero case raises in Python and never reaches the
formatter). -/
def fmtRate (total unique : Nat) : String :=
  let n := total * 1000
  let q := n / unique
  let r := n % unique
  let t :=
    if unique < 2 * r then q + 1
    else if 2 * r < unique then q
    else if q % 2 = 0 then q else q + 1
  toString (t / 10) ++ "." ++ toString (t % 10)

/-! ## HTML rendering (`view_stats`, lines 75-124)

The Python f-string braces `{{`/`}}` render as literal braces; they are
written `\x7b`/`\x7d` below. -/

/-- Head of the stats page, up to the interpolated total. -/
def statsHead : String :=
  "\n        <html>\n        <head><title>Email Tracking Stats</title>\n        <style>\n            body \x7bfont-family: Arial; padding: 20px; background: #f5f5f5;\x7d\n            .stat \x7bbackground: white; padding: 20px; margin: 10px 0; border-radius: 8px;\x7d\n            table \x7bwidth: 100%; border-collapse: collapse; margin-top: 20px;\x7d\n            th, td \x7bpadding: 10px; text-align: left; border-bottom: 1px solid #ddd;\x7d\n            th \x7bbackground: #646db1; color: white;\x7d\n            tr:hover \x7bbackground: #f5f5f5;\x7d\n        </style>\n        </head>\n        <body>\n        <h1>📊 Email Tracking Stats</h1>\n        \n        <div class=\"stat\">\n            <h2>Summary</h2>\n            <p><strong>Total Opens:</strong> "

/-- Between the total and the unique count. -/
def statsMid1 : String :=
  "</p>\n            <p><strong>Unique Emails:</strong> "

/-- Between the unique count and the open rate. -/
def statsMid2 : String :=
  "</p>\n            <p><strong>Open Rate:</strong> "

/-- From the open rate to the start of the table rows. -/
def statsMid3 : String :=
  "% (avg opens per email)</p>\n        </div>\n        \n        <div class=\"stat\">\n            <h2>Recent Opens</h2>\n            <table>\n                <tr>\n                    <th>Timestamp</th>\n                    <th>Tracking ID</th>\n                    <th>IP</th>\n                    <th>User Agent</th>\n                </tr>\n        "

/-- Closing part of the page (`html += \"\"\"...</table>...\"\"\"`). -/
def statsTail : String :=
  "\n            </table>\n        </div>\n        </body>\n        </html>\n        "

/-- Rows shown in the table: `reversed(opens[-50:])`. -/
def recentOpens (opens : List Record) : List Record :=
  (opens.drop (opens.length - 50)).reverse

/-- One `<tr>` of the table, truncating the displayed timestamp to 19
characters and the displayed user agent to 80
(`open_event['timestamp'][:19]`, `open_event['user_agent'][:80]`). -/
def renderRow (r : Record) : String :=
  "\n                <tr>\n                    <td>" ++ pyTake 19 r.timestamp ++
  "</td>\n                    <td>" ++ r.tracking_id ++
  "</td>\n                    <td>" ++ r.ip ++
  "</td>\n                    <td>" ++ pyTake 80 r.user_agent ++
  "</td>\n                </tr>\n            "

/-- The `html += ...` loop over `reversed(opens[-50:])`. -/
def rowsHtml (opens : List Record) : String :=
  String.join ((recentOpens opens).map renderRow)

/-- The complete stats page for the given counts and records. -/
def statsHtml (total unique : Nat) (opens : List Record) : String :=
  statsHead ++ toString total ++ statsMid1 ++ toString unique ++ statsMid2 ++
    fmtRate total unique ++ statsMid3 ++ rowsHtml opens ++ statsTail

/-! ## Responses and handlers -/

/-- An HTTP response: status code and body. -/
structure HttpResp where
  status : Nat
  body : String
deriving DecidableEq, Repr

/-- Outcome of `open(LOG_FILE, 'r')` + read: the file is missing
(`FileNotFoundError`), some other I/O error is raised, or the raw
content is obtained. -/
inductive ReadResult where
  | notFound
  | ioError (msg : String)
  | ok (content : String)
deriving DecidableEq, Repr

/-- The `try:` body of `view_stats` once the content has been read.
When zero records parse, `unique_emails == 0` and the f-string's
`total_opens/unique_emails*100` raises `ZeroDivisionError('division by
zero')`, which the `except Exception` arm turns into a 500 page. -/
def viewStatsOk (c : String) : HttpResp :=
  let opens := parseContent c
  let total := opens.length
  let unique := (opens.map Record.tracking_id).dedup.length
  if unique = 0 then
    ⟨500, "<h1>Error: division by zero</h1>"⟩
  else
    ⟨200, statsHtml total unique opens⟩

/-- Embeds `view_stats` as a function of the read outcome: `FileNotFoundError`
→ 404 page, any other exception → 500 page with the error text, success
→ the rendered page (Flask default status 200). -/
def viewStatsResult : ReadResult → HttpResp
  | .notFound => ⟨404, "<h1>No tracking data yet</h1>"⟩
  | .ioError msg => ⟨500, "<h1>Error: " ++ msg ++ "</h1>"⟩
  | .ok c => viewStatsOk c

/-! ## The pixel handler and the state layer

The file system is `Option String`: `none` when the log file does not
exist, `some c` when it exists with content `c`.  Append mode creates
the file, so a successful write to a missing file starts from `""`. -/

/-- Content the next append extends (`open(LOG_FILE, 'a')`). -/
def fileContent (fs : Option String) : String :=
  fs.getD ""

/-- Embeds `log_entry = f"{timestamp}|{tracking_id}|{ip}|{user_agent}\n"`. -/
def logEntry (ts tid ip ua : String) : String :=
  ts ++ "|" ++ tid ++ "|" ++ ip ++ "|" ++ ua ++ "\n"

/-- The pixel response: fixed bytes with `mimetype='image/png'`. -/
structure PixelResp where
  body : List Nat
  mimetype : String
deriving DecidableEq, Repr

/-- Embeds `track_pixel`: derive `ip` from the forwarded-for header (else the
remote address) and the user agent (else `'Unknown'`), append the log
line when the write succeeds (`writeOk`), swallow the failure otherwise
(`except Exception: print(...)`), and return the fixed pixel either
way. -/
def trackPixel (ts tid : String) (xff ua : Option String)
    (remoteAddr : String) (writeOk : Bool) (fs : Option String) :
    Option String × PixelResp :=
  let ip := xff.getD remoteAddr
  let userAgent := ua.getD "Unknown"
  let entry := logEntry ts tid ip userAgent
  let fs' := if writeOk then some (fileContent fs ++ entry) else fs
  (fs', ⟨PIXEL_DATA, "image/png"⟩)

/-- Embeds `view_stats` at the state level: reading never changes the file. -/
def viewStatsApp (fs : Option String) : Option String × HttpResp :=
  (fs,
    viewStatsResult
      (match fs with
       | none => .notFound
       | some c => .ok c))

/-- The health-check payload of `home`. -/
structure HealthPayload where
  status : String
  service : String
  version : String
deriving DecidableEq, Repr

/-- Embeds `home`: fixed payload, no side effect. -/
def home (fs : Option String) : Option String × HealthPayload :=
  (fs, ⟨"running", "Ocrevus Email Tracker", "1.0"⟩)

/-! ## Sequences of pixel requests -/

/-- The inputs of one pixel request. -/
structure PixelReq where
  ts : String
  tid : String
  xff : Option String
  ua : Option String
  addr : String
deriving DecidableEq, Repr

/-- Run a sequence of pixel requests whose writes all succeed. -/
def runRequests (reqs : List PixelReq) (fs : Option String) : Option String :=
  reqs.foldl (fun s r => (trackPixel r.ts r.tid r.xff r.ua r.addr true s).1) fs

/-- The `ip` value the pixel handler logs for a request. -/
def reqIp (r : PixelReq) : String :=
  r.xff.getD r.addr

/-- The `user_agent` value the pixel handler logs for a request. -/
def reqUa (r : PixelReq) : String :=
  r.ua.getD "Unknown"

/-- The log line of a request, without its terminating newline. -/
def reqLine (r : PixelReq) : String :=
  r.ts ++ "|" ++ r.tid ++ "|" ++ reqIp r ++ "|" ++ reqUa r

/-- The full log entry a successful request appends. -/
def entryOf (r : PixelReq) : String :=
  logEntry r.ts r.tid (reqIp r) (reqUa r)

/-- Concatenation of the entries of a request sequence. -/
def entriesStr : List PixelReq → String
  | [] => ""
  | r :: rest => entryOf r ++ entriesStr rest

/-- Concatenate character lines with a `'\n'` after each. -/
def joinNL : List (List Char) → List Char
  | [] => []
  | x :: xs => x ++ '\n' :: joinNL xs

/-- A string free of the newline characters that would split or merge
log lines on the read side. -/
def cleanStr (s : String) : Prop :=
  '\n' ∉ s.toList ∧ '\r' ∉ s.toList

instance (s : String) : Decidable (cleanStr s) := by
  unfold cleanStr; infer_instance

/-- A pixel request whose logged fields cannot corrupt the line
structure of the log: no `'|'` in the timestamp or tracking id, and no
newline or carriage return in any logged field. -/
def CleanReq (r : PixelReq) : Prop :=
  '|' ∉ r.ts.toList ∧ '|' ∉ r.tid.toList ∧
    cleanStr r.ts ∧ cleanStr r.tid ∧ cleanStr (reqIp r) ∧ cleanStr (reqUa r)

instance (r : PixelReq) : Decidable (CleanReq r) := by
  unfold CleanReq; infer_instance

/-! ## Helper lemmas: splitting -/

theorem pySplitChar_ne_nil (sep : Char) (l : List Char) : pySplitChar sep l ≠ [] := by
  induction l with
  | nil => simp [pySplitChar]
  | cons c rest ih =>
    simp only [pySplitChar]
    split
    · simp
    · split
      · simp
      · simp

theorem pySplitChar_length (sep : Char) (l : List Char) :
    (pySplitChar sep l).length = l.count sep + 1 := by
  induction l with
  | nil => simp [pySplitChar]
  | cons c rest ih =>
    by_cases hc : c = sep
    · subst hc
      simp [pySplitChar, List.count_cons, ih]
    · rcases hrec : pySplitChar sep rest with _ | ⟨g, gs⟩
      · exact absurd hrec (pySplitChar_ne_nil sep rest)
      · have : (pySplitChar sep (c :: rest)) = (c :: g) :: gs := by
          simp only [pySplitChar, if_neg hc, hrec]
        rw [this, List.count_cons]
        have hlen := ih
        rw [hrec] at hlen
        simp only [List.length_cons] at hlen ⊢
        have hbeq : (c == sep) = false := by simp [hc]
        rw [hbeq]
        simp only [Bool.false_eq_true, if_false]
        omega

theorem pySplitChar_of_not_mem {sep : Char} {l : List Char} (h : sep ∉ l) :
    pySplitChar sep l = [l] := by
  induction l with
  | nil => rfl
  | cons c rest ih =>
    have hc : ¬ c = sep := fun hq => h (hq ▸ List.mem_cons_self c rest)
    have hrest := ih (fun hm => h (List.mem_cons_of_mem _ hm))
    simp only [pySplitChar, if_neg hc, hrest]

theorem pySplitChar_append_cons {sep : Char} {a : List Char} (h : sep ∉ a) (b : List Char) :
    pySplitChar sep (a ++ sep :: b) = a :: pySplitChar sep b := by
  induction a with
  | nil => simp [pySplitChar]
  | cons c rest ih =>
    have hc : ¬ c = sep := fun hq => h (hq ▸ List.mem_cons_self c rest)
    have hrest := ih (fun hm => h (List.mem_cons_of_mem _ hm))
    simp only [List.cons_append, pySplitChar, List.append_eq, if_neg hc, hrest]

/-! ## Helper lemmas: universal newlines -/

theorem univNL_of_not_mem : ∀ {l : List Char}, '\r' ∉ l → univNL l = l := by
  intro l
  induction l with
  | nil => intro h; rfl
  | cons c rest ih =>
    intro h
    have hc : c ≠ '\r' := fun hq => h (hq ▸ List.mem_cons_self c rest)
    have hr : '\r' ∉ rest := fun hm => h (List.mem_cons_of_mem _ hm)
    rw [univNL.eq_def]
    split
    · rename_i heq; exact absurd heq (List.cons_ne_nil c rest)
    · rename_i heq; injection heq with h1 h2; exact absurd h1 hc
    · rename_i heq; injection heq with h1 h2; exact absurd h1 hc
    · rename_i heq; injection heq with h1 h2; subst h2; subst h1; rw [ih hr]

/-! ## Helper lemmas: stripping -/

theorem count_dropWhile_of_neg {p : Char → Bool} {ch : Char} (hch : p ch = false)
    (l : List Char) : (l.dropWhile p).count ch = l.count ch := by
  conv_rhs => rw [← List.takeWhile_append_dropWhile (p := p) (l := l)]
  rw [List.count_append]
  have : (l.takeWhile p).count ch = 0 := by
    rw [List.count_eq_zero]
    intro hm
    have := List.mem_takeWhile_imp hm
    simp [hch] at this
  omega

theorem count_pyStripList {ch : Char} (hch : isPySpace ch = false) (l : List Char) :
    (pyStripList l).count ch = l.count ch := by
  unfold pyStripList
  rw [List.count_reverse, count_dropWhile_of_neg hch, List.count_reverse,
    count_dropWhile_of_neg hch]

theorem dropWhile_append_cons_of_neg {p : Char → Bool} {c : Char} (hc : p c = false)
    (a b : List Char) : (a ++ c :: b).dropWhile p = a.dropWhile p ++ c :: b := by
  rw [List.dropWhile_append]
  split
  · rename_i h
    rw [List.isEmpty_iff] at h
    rw [h, List.dropWhile_cons, hc]
    simp
  · rfl

theorem rstrip_append {p : Char → Bool} (Z tail : List Char)
    (h : ∃ x ∈ tail, p x = false) :
    ((Z ++ tail).reverse.dropWhile p).reverse = Z ++ (tail.reverse.dropWhile p).reverse := by
  rw [List.reverse_append, List.dropWhile_append]
  have hne : tail.reverse.dropWhile p ≠ [] := by
    rw [Ne, List.dropWhile_eq_nil_iff]
    push_neg
    obtain ⟨x, hx, hpx⟩ := h
    exact ⟨x, List.mem_reverse.mpr hx, by simp [hpx]⟩
  rw [if_neg (by simpa [List.isEmpty_iff] using hne)]
  rw [List.reverse_append, List.reverse_reverse]

theorem dropWhile_eq_self_of_head {p : Char → Bool} {l : List Char}
    (h : ∀ c, l.head? = some c → p c = false) : l.dropWhile p = l := by
  cases l with
  | nil => rfl
  | cons c rest => rw [List.dropWhile_cons, h c rfl]; simp

theorem parseOpens_eq_filterMap (lines : List String) :
    parseOpens lines = lines.filterMap parseLine := by
  suffices h : ∀ (ls : List String) (acc : List Record),
      List.foldl
        (fun acc line =>
          match parseLine line with
          | some r => acc ++ [r]
          | none => acc)
        acc ls = acc ++ ls.filterMap parseLine by
    simpa using h lines []
  intro ls
  induction ls with
  | nil => intro acc; simp
  | cons l rest ih =>
    intro acc
    simp only [List.foldl_cons, List.filterMap_cons]
    cases hp : parseLine l with
    | none => simp only [hp]; rw [ih]
    | some r => simp only [hp]; rw [ih]; simp

theorem parseLine_of_short {line : String}
    (h : (pySplit (pyStrip line) '|').length < 4) : parseLine line = none := by
  unfold parseLine
  rw [dif_neg (by omega)]

theorem parseLine_of_parts {line p0 p1 p2 p3 : String} {rest : List String}
    (h : pySplit (pyStrip line) '|' = p0 :: p1 :: p2 :: p3 :: rest) :
    parseLine line = some ⟨p0, p1, p2, p3⟩ := by
  have key : ∀ parts : List String, parts = p0 :: p1 :: p2 :: p3 :: rest →
      (if h : 4 ≤ parts.length then
        some (⟨parts.get ⟨0, by omega⟩, parts.get ⟨1, by omega⟩,
              parts.get ⟨2, by omega⟩, parts.get ⟨3, by omega⟩⟩ : Record)
      else none) = some ⟨p0, p1, p2, p3⟩ := by
    intro parts hp
    subst hp
    rw [dif_pos (by simp)]
    simp [List.get]
  exact key _ h

theorem pyStripList_eq_self {l : List Char}
    (hfront : ∀ c, l.head? = some c → isPySpace c = false)
    (hback : ∀ c, l.getLast? = some c → isPySpace c = false) :
    pyStripList l = l := by
  unfold pyStripList
  rw [dropWhile_eq_self_of_head hfront]
  rw [dropWhile_eq_self_of_head (by simpa using hback)]
  exact List.reverse_reverse l

/-! ## Helper lemmas: parsing structured lines -/

theorem parseLine_tid {a b c2 : List Char} (ha : '|' ∉ a) (hb : '|' ∉ b)
    (hc : 1 ≤ c2.count '|') :
    ∃ r : Record, parseLine (String.mk (a ++ ('|' :: (b ++ ('|' :: c2))))) = some r ∧
      r.tracking_id = String.mk b := by
  have hws : isPySpace '|' = false := rfl
  have hstrip : pyStripList (a ++ ('|' :: (b ++ ('|' :: c2)))) =
      a.dropWhile isPySpace ++
        ('|' :: (b ++ ('|' :: (c2.reverse.dropWhile isPySpace).reverse))) := by
    unfold pyStripList
    rw [dropWhile_append_cons_of_neg hws]
    have hshape : a.dropWhile isPySpace ++ ('|' :: (b ++ ('|' :: c2))) =
        (a.dropWhile isPySpace ++ ('|' :: (b ++ ['|']))) ++ c2 := by simp
    rw [hshape, rstrip_append _ _ ⟨'|', List.count_pos_iff.mp (by omega), hws⟩]
    simp
  have hA : '|' ∉ a.dropWhile isPySpace :=
    fun hm => ha ((List.dropWhile_sublist _).subset hm)
  have hsplit : pySplitChar '|' (pyStripList (a ++ ('|' :: (b ++ ('|' :: c2))))) =
      a.dropWhile isPySpace :: b ::
        pySplitChar '|' (c2.reverse.dropWhile isPySpace).reverse := by
    rw [hstrip, pySplitChar_append_cons hA, pySplitChar_append_cons hb]
  have hlen : 2 ≤ (pySplitChar '|' (c2.reverse.dropWhile isPySpace).reverse).length := by
    rw [pySplitChar_length, List.count_reverse, count_dropWhile_of_neg hws,
      List.count_reverse]
    omega
  rcases htl : pySplitChar '|' (c2.reverse.dropWhile isPySpace).reverse with _ | ⟨t0, tl⟩
  · rw [htl] at hlen; simp at hlen
  rcases tl with _ | ⟨t1, tl2⟩
  · rw [htl] at hlen; simp at hlen
  refine ⟨⟨String.mk (a.dropWhile isPySpace), String.mk b, String.mk t0, String.mk t1⟩,
    ?_, rfl⟩
  apply parseLine_of_parts
  show (pySplitChar '|' (pyStripList (a ++ ('|' :: (b ++ ('|' :: c2)))))).map String.mk = _
  rw [hsplit, htl]
  rfl

theorem parseLine_roundTrip {a b c d : List Char}
    (ha : '|' ∉ a) (hb : '|' ∉ b) (hc : '|' ∉ c) (hd : '|' ∉ d)
    (hfront : ∀ ch, a.head? = some ch → isPySpace ch = false)
    (hback : ∀ ch, d.getLast? = some ch → isPySpace ch = false) :
    parseLine (String.mk (a ++ ('|' :: (b ++ ('|' :: (c ++ ('|' :: (d ++ ['\n'])))))))) =
      some ⟨String.mk a, String.mk b, String.mk c, String.mk d⟩ := by
  have hws : isPySpace '|' = false := rfl
  have hrtail : ((('|' :: (d ++ ['\n'])).reverse).dropWhile isPySpace).reverse =
      '|' :: d := by
    rw [List.reverse_cons, List.reverse_append]
    simp only [List.reverse_singleton, List.singleton_append, List.cons_append]
    rw [List.dropWhile_cons]
    simp only [show isPySpace '\n' = true from rfl, if_true]
    rw [dropWhile_eq_self_of_head]
    · simp
    · intro ch hch
      rw [List.head?_append] at hch
      simp only [List.nil_append] at hch
      cases hdr : d.reverse.head? with
      | none =>
        rw [hdr] at hch
        simp at hch
        rw [← hch]
        rfl
      | some z =>
        rw [hdr] at hch
        simp at hch
        subst hch
        exact hback z (by rw [← List.head?_reverse]; exact hdr)
  have hfrontL : ∀ ch,
      (a ++ ('|' :: (b ++ ('|' :: (c ++ ('|' :: (d ++ ['\n']))))))).head? = some ch →
        isPySpace ch = false := by
    intro ch hch
    cases a with
    | nil =>
      simp only [List.nil_append, List.head?_cons] at hch
      injection hch with h2
      rw [← h2]
      rfl
    | cons x xs =>
      simp only [List.cons_append, List.head?_cons] at hch
      exact hfront ch (by rw [List.head?_cons]; exact hch)
  have hstrip : pyStripList (a ++ ('|' :: (b ++ ('|' :: (c ++ ('|' :: (d ++ ['\n']))))))) =
      a ++ ('|' :: (b ++ ('|' :: (c ++ ('|' :: d))))) := by
    unfold pyStripList
    rw [dropWhile_eq_self_of_head hfrontL]
    have hshape : a ++ ('|' :: (b ++ ('|' :: (c ++ ('|' :: (d ++ ['\n'])))))) =
        (a ++ ('|' :: (b ++ ('|' :: c)))) ++ ('|' :: (d ++ ['\n'])) := by simp
    rw [hshape, rstrip_append _ _ ⟨'|', by simp, hws⟩, hrtail]
    simp
  have hsplit : pySplitChar '|' (a ++ ('|' :: (b ++ ('|' :: (c ++ ('|' :: d)))))) =
      [a, b, c, d] := by
    rw [pySplitChar_append_cons ha, pySplitChar_append_cons hb,
      pySplitChar_append_cons hc, pySplitChar_of_not_mem hd]
  apply parseLine_of_parts
  show (pySplitChar '|'
      (pyStripList (a ++ ('|' :: (b ++ ('|' :: (c ++ ('|' :: (d ++ ['\n']))))))))).map
        String.mk = _
  rw [hstrip, hsplit]
  rfl

/-! ## Helper lemmas: reading back a log of clean entries -/

theorem not_mem_joinNL {ch : Char} (hch : ch ≠ '\n') :
    ∀ {lss : List (List Char)}, (∀ ls ∈ lss, ch ∉ ls) → ch ∉ joinNL lss := by
  intro lss
  induction lss with
  | nil => intro _; simp [joinNL]
  | cons x xs ih =>
    intro h hm
    simp only [joinNL] at hm
    rcases List.mem_append.mp hm with h1 | h2
    · exact h x (by simp) h1
    · rcases List.mem_cons.mp h2 with h3 | h4
      · exact hch h3
      · exact ih (fun ls hls => h ls (by simp [hls])) h4

theorem rejoin_split_joinNL :
    ∀ {lss : List (List Char)}, (∀ ls ∈ lss, '\n' ∉ ls) →
      rejoinLines (pySplitChar '\n' (joinNL lss)) = lss.map (· ++ ['\n']) := by
  intro lss
  induction lss with
  | nil => intro _; rfl
  | cons x xs ih =>
    intro h
    have hx : '\n' ∉ x := h x (by simp)
    have hxs : ∀ ls ∈ xs, '\n' ∉ ls := fun ls hls => h ls (by simp [hls])
    simp only [joinNL]
    rw [pySplitChar_append_cons hx]
    rcases hsp : pySplitChar '\n' (joinNL xs) with _ | ⟨y, ys⟩
    · exact absurd hsp (pySplitChar_ne_nil _ _)
    · show (x ++ ['\n']) :: rejoinLines (y :: ys) = _
      have hih := ih hxs
      rw [hsp] at hih
      rw [hih]
      simp

theorem pyReadlines_joinNL {lss : List (List Char)}
    (h : ∀ ls ∈ lss, '\n' ∉ ls ∧ '\r' ∉ ls) :
    pyReadlines (String.mk (joinNL lss)) =
      lss.map (fun ls => String.mk (ls ++ ['\n'])) := by
  unfold pyReadlines
  show (rejoinLines (pySplitChar '\n' (univNL (joinNL lss)))).map String.mk = _
  rw [univNL_of_not_mem (not_mem_joinNL (by decide) (fun ls hls => (h ls hls).2)),
    rejoin_split_joinNL (fun ls hls => (h ls hls).1), List.map_map]
  rfl

theorem reqLine_toList (r : PixelReq) :
    (reqLine r).toList =
      r.ts.toList ++ ('|' :: (r.tid.toList ++
        ('|' :: ((reqIp r).toList ++ ('|' :: (reqUa r).toList))))) := by
  show (r.ts ++ "|" ++ r.tid ++ "|" ++ reqIp r ++ "|" ++ reqUa r).data = _
  simp only [String.data_append]
  simp [show ("|" : String).data = ['|'] from rfl]

theorem entryOf_toList (r : PixelReq) :
    (entryOf r).toList = (reqLine r).toList ++ ['\n'] := rfl

theorem entriesStr_toList : ∀ reqs : List PixelReq,
    (entriesStr reqs).toList = joinNL (reqs.map (fun r => (reqLine r).toList)) := by
  intro reqs
  induction reqs with
  | nil => rfl
  | cons r rest ih =>
    show (entryOf r ++ entriesStr rest).toList = _
    simp only [List.map_cons, joinNL]
    have h1 : (entryOf r ++ entriesStr rest).toList =
        (entryOf r).toList ++ (entriesStr rest).toList := String.data_append _ _
    rw [h1, ih, entryOf_toList, List.append_assoc]
    rfl

theorem reqLine_clean {r : PixelReq} (h : CleanReq r) :
    '\n' ∉ (reqLine r).toList ∧ '\r' ∉ (reqLine r).toList := by
  obtain ⟨hts, htid, ⟨hts1, hts2⟩, ⟨htid1, htid2⟩, ⟨hip1, hip2⟩, ⟨hua1, hua2⟩⟩ := h
  rw [reqLine_toList]
  constructor <;>
    · intro hm
      simp only [List.mem_append, List.mem_cons] at hm
      rcases hm with h1 | h1 | h1 | h1 | h1 | h1 | h1 <;>
        first
          | exact hts1 h1
          | exact hts2 h1
          | exact htid1 h1
          | exact htid2 h1
          | exact hip1 h1
          | exact hip2 h1
          | exact hua1 h1
          | exact hua2 h1
          | exact absurd h1 (by decide)

theorem filterMap_all_some {α β γ : Type} (f : α → Option β) (g : β → γ) (h : α → γ) :
    ∀ {l : List α}, (∀ x ∈ l, ∃ y, f x = some y ∧ g y = h x) →
      (l.filterMap f).length = l.length ∧ (l.filterMap f).map g = l.map h := by
  intro l
  induction l with
  | nil => intro _; exact ⟨rfl, rfl⟩
  | cons x xs ih =>
    intro hall
    obtain ⟨y, hy, hgy⟩ := hall x (by simp)
    have hrest := ih (fun z hz => hall z (by simp [hz]))
    rw [List.filterMap_cons, hy]
    simp only [List.length_cons, List.map_cons]
    exact ⟨by rw [hrest.1], by rw [hrest.2, hgy]⟩

theorem parseLine_entry {r : PixelReq} (h : CleanReq r) :
    ∃ rec : Record, parseLine (String.mk ((reqLine r).toList ++ ['\n'])) = some rec ∧
      rec.tracking_id = r.tid := by
  obtain ⟨hts, htid, _, _, _, _⟩ := h
  have hshape : (reqLine r).toList ++ ['\n'] =
      r.ts.toList ++ ('|' :: (r.tid.toList ++
        ('|' :: ((reqIp r).toList ++ ('|' :: ((reqUa r).toList ++ ['\n'])))))) := by
    rw [reqLine_toList]
    simp
  rw [hshape]
  have hc : 1 ≤ ((reqIp r).toList ++ ('|' :: ((reqUa r).toList ++ ['\n']))).count '|' := by
    rw [List.count_append, List.count_cons]
    simp
    omega
  obtain ⟨rec, hrec, htidv⟩ := parseLine_tid hts htid hc
  exact ⟨rec, hrec, htidv.trans rfl⟩

set_option maxHeartbeats 1000000 in
theorem parseContent_entriesStr : ∀ {reqs : List PixelReq}, (∀ r ∈ reqs, CleanReq r) →
    (parseContent (entriesStr reqs)).length = reqs.length ∧
    (parseContent (entriesStr reqs)).map Record.tracking_id = reqs.map PixelReq.tid := by
  intro reqs h
  have hlines : ∀ ls ∈ reqs.map (fun r => (reqLine r).toList), '\n' ∉ ls ∧ '\r' ∉ ls := by
    intro ls hls
    obtain ⟨r, hr, rfl⟩ := List.mem_map.mp hls
    exact reqLine_clean (h r hr)
  have hread : pyReadlines (entriesStr reqs) =
      reqs.map (fun r => String.mk ((reqLine r).toList ++ ['\n'])) := by
    have heq : entriesStr reqs =
        String.mk (joinNL (reqs.map (fun r => (reqLine r).toList))) := by
      rw [← entriesStr_toList]
      rfl
    rw [heq, pyReadlines_joinNL hlines, List.map_map]

    rfl
  unfold parseContent
  rw [hread, parseOpens_eq_filterMap, List.filterMap_map]
  exact filterMap_all_some _ Record.tracking_id PixelReq.tid
    (fun r hr => parseLine_entry (h r hr))

theorem runRequests_some : ∀ (reqs : List PixelReq) (c : String),
    runRequests reqs (some c) = some (c ++ entriesStr reqs) := by
  intro reqs
  induction reqs with
  | nil => intro c; simp [runRequests, entriesStr]
  | cons r rest ih =>
    intro c
    unfold runRequests at ih ⊢
    rw [List.foldl_cons]
    have hstep : (trackPixel r.ts r.tid r.xff r.ua r.addr true (some c)).1 =
        some (c ++ entryOf r) := rfl
    rw [hstep, ih (c ++ entryOf r)]
    show some (c ++ entryOf r ++ entriesStr rest) = some (c ++ entriesStr (r :: rest))
    rw [String.append_assoc]
    rfl

/-! ## Helper lemmas: dedup -/

theorem dedup_length_of_all_eq {t : String} :
    ∀ {l : List String}, l ≠ [] → (∀ x ∈ l, x = t) → l.dedup.length = 1 := by
  intro l
  induction l with
  | nil => intro hne _; exact absurd rfl hne
  | cons x xs ih =>
    intro _ h
    have hx : x = t := h x (by simp)
    cases hxs : xs with
    | nil =>
      subst hxs
      rw [List.dedup_cons_of_not_mem (by simp), List.dedup_nil]
      rfl
    | cons y ys =>
      subst hxs
      have hmem : x ∈ y :: ys := by
        have hy : y = t := h y (by simp)
        rw [hx, ← hy]
        exact List.mem_cons_self y ys
      rw [List.dedup_cons_of_mem hmem]
      exact ih (by simp) (fun z hz => h z (by simp [hz]))

/-! ## Helper lemmas: the stats handler -/

theorem dedup_map_nil_iff (opens : List Record) :
    (opens.map Record.tracking_id).dedup = [] ↔ opens = [] := by
  rw [List.dedup_eq_nil, List.map_eq_nil_iff]

theorem uniqueEmails_eq_zero_iff (c : String) :
    uniqueEmails c = 0 ↔ parseContent c = [] := by
  unfold uniqueEmails
  rw [List.length_eq_zero, dedup_map_nil_iff]

theorem viewStatsOk_of_ne {c : String} (h : parseContent c ≠ []) :
    viewStatsOk c = ⟨200, statsHtml (totalOpens c) (uniqueEmails c) (parseContent c)⟩ := by
  have h0 : ¬ ((parseContent c).map Record.tracking_id).dedup.length = 0 := by
    rw [List.length_eq_zero, dedup_map_nil_iff]
    exact h
  unfold viewStatsOk
  rw [if_neg h0]
  rfl

theorem viewStatsOk_of_nil {c : String} (h : parseContent c = []) :
    viewStatsOk c = ⟨500, "<h1>Error: division by zero</h1>"⟩ := by
  have h0 : ((parseContent c).map Record.tracking_id).dedup.length = 0 := by
    rw [List.length_eq_zero, dedup_map_nil_iff]
    exact h
  unfold viewStatsOk
  rw [if_pos h0]

theorem recentOpens_length (opens : List Record) :
    (recentOpens opens).length = min 50 opens.length := by
  unfold recentOpens
  rw [List.length_reverse, List.length_drop]
  omega

theorem recentOpens_get (opens : List Record) (i : Nat)
    (hi : i < (recentOpens opens).length) (hj : opens.length - 1 - i < opens.length) :
    (recentOpens opens).get ⟨i, hi⟩ = opens.get ⟨opens.length - 1 - i, hj⟩ := by
  have hlen := recentOpens_length opens
  have hi50 : i < min 50 opens.length := by omega
  apply Option.some.inj
  simp only [List.get_eq_getElem]
  rw [← List.getElem?_eq_getElem, ← List.getElem?_eq_getElem]
  unfold recentOpens
  rw [List.getElem?_reverse (by rw [List.length_drop]; omega), List.getElem?_drop]
  congr 1
  rw [List.length_drop]
  omega

theorem openRateQ_ge (t u : Nat) (h1 : 0 < u) (h2 : u ≤ t) :
    100 ≤ openRateQ t u := by
  unfold openRateQ
  have hu : (0 : ℚ) < u := by exact_mod_cast h1
  have ht : (u : ℚ) ≤ t := by exact_mod_cast h2
  rw [div_mul_eq_mul_div, le_div_iff₀ hu]
  nlinarith [ht]

theorem viewStatsOk_status (c : String) :
    (viewStatsOk c).status = if parseContent c = [] then 500 else 200 := by
  by_cases hc : parseContent c = []
  · rw [viewStatsOk_of_nil hc, if_pos hc]
  · rw [viewStatsOk_of_ne hc, if_neg hc]

/-! ## Claims -/

/-- C1: for every tracking id and timestamp, every present/absent
combination of the X-Forwarded-For and User-Agent headers, every file
state and both write outcomes, the pixel handler returns the same fixed
PNG payload with content-type `image/png`; in particular the response is
identical whether the log append succeeds or raises. -/
theorem pixel_response_fixed (ts tid : String) (xff ua : Option String)
    (remoteAddr : String) (writeOk : Bool) (fs : Option String) :
    (trackPixel ts tid xff ua remoteAddr writeOk fs).2 =
      ⟨PIXEL_DATA, "image/png"⟩ ∧
    (trackPixel ts tid xff ua remoteAddr true fs).2 =
      (trackPixel ts tid xff ua remoteAddr false fs).2 :=
  ⟨rfl, rfl⟩

/-- C10: the stats handler leaves the log file unchanged, and the health
handler has no side effect and always returns the fixed payload with
status `running`, service `Ocrevus Email Tracker`, version `1.0`; only
the pixel handler writes. -/
theorem read_handlers_no_write (fs : Option String) :
    (viewStatsApp fs).1 = fs ∧
    (home fs).1 = fs ∧
    (home fs).2 = ⟨"running", "Ocrevus Email Tracker", "1.0"⟩ :=
  ⟨rfl, rfl, rfl⟩

/-- C7: on a successful write one pixel request appends exactly the
entry `timestamp|tracking_id|ip|user_agent` followed by a newline to the
end of the log, leaving all previous content unchanged as a prefix; for
the spec's example tracking id the appended line parses back with that
id as the record's second field. -/
theorem pixel_append_entry :
    (∀ (ts tid : String) (xff ua : Option String) (remoteAddr : String)
        (fs : Option String),
      (trackPixel ts tid xff ua remoteAddr true fs).1 =
        some (fileContent fs ++
          logEntry ts tid (xff.getD remoteAddr) (ua.getD "Unknown"))) ∧
    (∀ a b c d : String,
      logEntry a b c d = a ++ "|" ++ b ++ "|" ++ c ++ "|" ++ d ++ "\n") ∧
    parseContent
        (logEntry "2025-12-15T10:00:00" "ocrevus_20251215_TERR013_thomas.gambade"
          "203.0.113.7" "Mozilla/5.0") =
      [⟨"2025-12-15T10:00:00", "ocrevus_20251215_TERR013_thomas.gambade",
        "203.0.113.7", "Mozilla/5.0"⟩] :=
  ⟨fun _ _ _ _ _ _ => rfl, fun _ _ _ _ => rfl, by decide⟩

/-- C6: the stats response partitions by failure cause: status 404 with
the minimal not-found body exactly when the log file is missing, status
500 with the error text embedded for any other raised error (including
the division-by-zero on an empty parse), and status 200 with the page
exactly when reading and rendering succeed. -/
theorem stats_response_partition (r : ReadResult) :
    ((viewStatsResult r).status = 404 ↔ r = ReadResult.notFound) ∧
    viewStatsResult ReadResult.notFound = ⟨404, "<h1>No tracking data yet</h1>"⟩ ∧
    (∀ msg, viewStatsResult (ReadResult.ioError msg) =
      ⟨500, "<h1>Error: " ++ msg ++ "</h1>"⟩) ∧
    (∀ c, (viewStatsResult (ReadResult.ok c)).status = 200 ↔ parseContent c ≠ []) ∧
    (∀ c, (viewStatsResult (ReadResult.ok c)).status = 200 ∨
      (viewStatsResult (ReadResult.ok c)).status = 500) := by
  refine ⟨?_, rfl, fun msg => rfl, ?_, ?_⟩
  · cases r with
    | notFound => simp [viewStatsResult]
    | ioError msg => simp [viewStatsResult]
    | ok c =>
      show ((viewStatsOk c).status = 404 ↔ _)
      rw [viewStatsOk_status]
      by_cases hc : parseContent c = [] <;> simp [hc]
  · intro c
    show (viewStatsOk c).status = 200 ↔ _
    rw [viewStatsOk_status]
    by_cases hc : parseContent c = [] <;> simp [hc]
  · intro c
    show (viewStatsOk c).status = 200 ∨ (viewStatsOk c).status = 500
    rw [viewStatsOk_status]
    by_cases hc : parseContent c = [] <;> simp [hc]

/-- C3: the parser keeps exactly the lines whose strip-then-split on
`'|'` has at least four parts, taking the first four parts as the
record's timestamp, tracking id, ip and user agent (extra parts are
discarded); every shorter line — such as one with only two fields — is
excluded from the records and hence from both counts, as the concrete
two-line log shows. -/
theorem parser_min_four_parts :
    (∀ lines : List String, parseOpens lines = lines.filterMap parseLine) ∧
    (∀ line : String,
      (pySplit (pyStrip line) '|').length < 4 → parseLine line = none) ∧
    (∀ (line p0 p1 p2 p3 : String) (rest : List String),
      pySplit (pyStrip line) '|' = p0 :: p1 :: p2 :: p3 :: rest →
        parseLine line = some ⟨p0, p1, p2, p3⟩) ∧
    (pySplit (pyStrip "a|b\n") '|').length = 2 ∧
    parseContent "a|b\nt1|i1|p1|u1\n" = [⟨"t1", "i1", "p1", "u1"⟩] ∧
    totalOpens "a|b\nt1|i1|p1|u1\n" = 1 ∧
    uniqueEmails "a|b\nt1|i1|p1|u1\n" = 1 :=
  ⟨parseOpens_eq_filterMap, fun _ h => parseLine_of_short h,
    fun _ _ _ _ _ _ h => parseLine_of_parts h, by decide, by decide, by decide,
    by decide⟩

/-- Witness for C3: a two-field line is dropped, a four-field line is
kept with its four parts. -/
theorem parser_min_four_parts_witness :
    parseLine "a|b" = none ∧ parseLine "t|i|p|u" = some ⟨"t", "i", "p", "u"⟩ :=
  ⟨parser_min_four_parts.2.1 "a|b" (by decide),
    parser_min_four_parts.2.2.1 "t|i|p|u" "t" "i" "p" "u" [] (by decide)⟩

/-- C9: for every log content the aggregation satisfies
`unique_emails ≤ total_opens` and `unique_emails = 0 ↔ total_opens = 0`;
consequently, whenever at least one record parses, the open-rate
division is defined and its exact value `total/unique*100` is at least
100. -/
theorem stats_counts_invariant (c : String) :
    uniqueEmails c ≤ totalOpens c ∧
    (uniqueEmails c = 0 ↔ totalOpens c = 0) ∧
    (0 < totalOpens c → 100 ≤ openRateQ (totalOpens c) (uniqueEmails c)) := by
  have h1 : uniqueEmails c ≤ totalOpens c := by
    unfold uniqueEmails totalOpens
    calc ((parseContent c).map Record.tracking_id).dedup.length
        ≤ ((parseContent c).map Record.tracking_id).length :=
          (List.dedup_sublist _).length_le
      _ = (parseContent c).length := List.length_map _ _
  refine ⟨h1, ?_, ?_⟩
  · rw [uniqueEmails_eq_zero_iff]
    unfold totalOpens
    rw [List.length_eq_zero]
  · intro ht
    have hu : 0 < uniqueEmails c := by
      rcases Nat.eq_zero_or_pos (uniqueEmails c) with h0 | h0
      · rw [uniqueEmails_eq_zero_iff] at h0
        unfold totalOpens at ht
        rw [h0] at ht
        simp at ht
      · exact h0
    exact openRateQ_ge _ _ hu h1

/-- Witness for C9 on a one-record log. -/
theorem stats_counts_invariant_witness :
    uniqueEmails "t|i|p|u\n" ≤ totalOpens "t|i|p|u\n" ∧
    100 ≤ openRateQ (totalOpens "t|i|p|u\n") (uniqueEmails "t|i|p|u\n") :=
  ⟨(stats_counts_invariant "t|i|p|u\n").1,
    (stats_counts_invariant "t|i|p|u\n").2.2 (by decide)⟩

set_option maxRecDepth 8192 in
/-- C5: when at least one record parses, the handler returns the 200
page, which renders the open rate as `total/unique*100` formatted to one
decimal (`fmtRate`) followed by a percent sign; the division-by-zero
error occurs exactly when zero records parse, and is then surfaced as
the 500 error response. -/
theorem open_rate_division (c : String) :
    (parseContent c ≠ [] →
      viewStatsOk c =
        ⟨200, statsHtml (totalOpens c) (uniqueEmails c) (parseContent c)⟩ ∧
      ∃ pre post, statsHtml (totalOpens c) (uniqueEmails c) (parseContent c) =
        pre ++ (fmtRate (totalOpens c) (uniqueEmails c) ++ ("%" ++ post))) ∧
    (viewStatsOk c = ⟨500, "<h1>Error: division by zero</h1>"⟩ ↔
      parseContent c = []) := by
  constructor
  · intro h
    refine ⟨viewStatsOk_of_ne h,
      statsHead ++ toString (totalOpens c) ++ statsMid1 ++
        toString (uniqueEmails c) ++ statsMid2,
      (" (avg opens per email)</p>\n        </div>\n        \n        <div class=\"stat\">\n            <h2>Recent Opens</h2>\n            <table>\n                <tr>\n                    <th>Timestamp</th>\n                    <th>Tracking ID</th>\n                    <th>IP</th>\n                    <th>User Agent</th>\n                </tr>\n        ") ++
        rowsHtml (parseContent c) ++ statsTail, ?_⟩
    have hbase : statsMid3 =
        "%" ++
          " (avg opens per email)</p>\n        </div>\n        \n        <div class=\"stat\">\n            <h2>Recent Opens</h2>\n            <table>\n                <tr>\n                    <th>Timestamp</th>\n                    <th>Tracking ID</th>\n                    <th>IP</th>\n                    <th>User Agent</th>\n                </tr>\n        " := by
      decide
    have hstep : ∀ g : String, statsMid3 ++ g =
        "%" ++
          (" (avg opens per email)</p>\n        </div>\n        \n        <div class=\"stat\">\n            <h2>Recent Opens</h2>\n            <table>\n                <tr>\n                    <th>Timestamp</th>\n                    <th>Tracking ID</th>\n                    <th>IP</th>\n                    <th>User Agent</th>\n                </tr>\n        " ++ g) := by
      intro g
      rw [hbase, String.append_assoc]
    unfold statsHtml
    simp only [String.append_assoc]
    rw [hstep]
  · constructor
    · intro heq
      by_contra hc
      rw [viewStatsOk_of_ne hc] at heq
      have hst := congrArg HttpResp.status heq
      simp at hst
    · exact viewStatsOk_of_nil

/-- Witness for C5 on a one-record log. -/
theorem open_rate_division_witness :
    viewStatsOk "t|i|p|u\n" =
      ⟨200, statsHtml (totalOpens "t|i|p|u\n") (uniqueEmails "t|i|p|u\n")
        (parseContent "t|i|p|u\n")⟩ :=
  ((open_rate_division "t|i|p|u\n").1 (by decide)).1

/-- C8: the table of the stats page has exactly `min 50 total_opens`
rows, namely the last `min 50 total_opens` parsed records in reverse
file order (most recent first); each row depends only on the timestamp
truncated to its first 19 characters and the user agent truncated to its
first 80 (the records themselves are left unchanged). -/
theorem stats_recent_rows (c : String) :
    (recentOpens (parseContent c)).length = min 50 (totalOpens c) ∧
    (∀ i, ∀ hi : i < (recentOpens (parseContent c)).length,
      ∀ hj : (parseContent c).length - 1 - i < (parseContent c).length,
      (recentOpens (parseContent c)).get ⟨i, hi⟩ =
        (parseContent c).get ⟨(parseContent c).length - 1 - i, hj⟩) ∧
    rowsHtml (parseContent c) =
      String.join ((recentOpens (parseContent c)).map renderRow) ∧
    (∀ r : Record, renderRow r =
      renderRow ⟨pyTake 19 r.timestamp, r.tracking_id, r.ip,
        pyTake 80 r.user_agent⟩) := by
  refine ⟨recentOpens_length _, fun i hi hj => recentOpens_get _ i hi hj, rfl, ?_⟩
  intro r
  unfold renderRow
  simp [pyTake, List.take_take]

/-- Witness for C8 on a one-record log: one row, showing the (only)
record. -/
theorem stats_recent_rows_witness :
    (recentOpens (parseContent "t|i|p|u\n")).length =
      min 50 (totalOpens "t|i|p|u\n") ∧
    (recentOpens (parseContent "t|i|p|u\n")).get ⟨0, by decide⟩ =
      (parseContent "t|i|p|u\n").get
        ⟨(parseContent "t|i|p|u\n").length - 1 - 0, by decide⟩ :=
  ⟨(stats_recent_rows "t|i|p|u\n").1,
    (stats_recent_rows "t|i|p|u\n").2.1 0 (by decide) (by decide)⟩

/-- C2 counterexample: two successful pixel requests with the distinct
tracking ids `a|x` and `a|y` (and no other log content) yield
`total_opens = 2` but `unique_emails = 1`, not 2 — the unescaped
delimiter shifts the parsed fields so both records report tracking id
`a`. -/
theorem request_counts_counterexample :
    runRequests
        [⟨"t1", "a|x", none, none, "i"⟩, ⟨"t2", "a|y", none, none, "i"⟩] none =
      some "t1|a|x|i|Unknown\nt2|a|y|i|Unknown\n" ∧
    ("a|x" : String) ≠ "a|y" ∧
    totalOpens "t1|a|x|i|Unknown\nt2|a|y|i|Unknown\n" = 2 ∧
    uniqueEmails "t1|a|x|i|Unknown\nt2|a|y|i|Unknown\n" ≠ 2 ∧
    uniqueEmails "t1|a|x|i|Unknown\nt2|a|y|i|Unknown\n" = 1 :=
  ⟨by decide, by decide, by decide, by decide, by decide⟩

/-- C2 amended: after `N ≥ 1` successful pixel requests starting from no
log file, provided no logged field contains a newline or carriage return
and the timestamps and tracking ids contain no `'|'`, the stats handler
reports `total_opens = N`; `unique_emails = N` when the tracking ids are
pairwise distinct, and `unique_emails = 1` when they all coincide. -/
theorem request_counts_amended (reqs : List PixelReq) (hne : reqs ≠ [])
    (hclean : ∀ r ∈ reqs, CleanReq r) :
    ∃ content : String, runRequests reqs none = some content ∧
      totalOpens content = reqs.length ∧
      ((reqs.map PixelReq.tid).Nodup → uniqueEmails content = reqs.length) ∧
      (∀ t : String, (∀ r ∈ reqs, r.tid = t) → uniqueEmails content = 1) := by
  obtain ⟨r0, rest, rfl⟩ := List.exists_cons_of_ne_nil hne
  refine ⟨entriesStr (r0 :: rest), ?_, ?_, ?_, ?_⟩
  · unfold runRequests
    rw [List.foldl_cons]
    have hstep : (trackPixel r0.ts r0.tid r0.xff r0.ua r0.addr true none).1 =
        some ("" ++ entryOf r0) := rfl
    rw [hstep]
    show runRequests rest (some ("" ++ entryOf r0)) = _
    rw [runRequests_some, String.empty_append]
    rfl
  · exact (parseContent_entriesStr hclean).1
  · intro hnd
    have hmap := (parseContent_entriesStr hclean).2
    unfold uniqueEmails
    rw [hmap, List.Nodup.dedup hnd, List.length_map]
  · intro t hall
    have hmap := (parseContent_entriesStr hclean).2
    unfold uniqueEmails
    rw [hmap]
    exact dedup_length_of_all_eq (t := t) (by simp)
      (fun x hx => by
        obtain ⟨r, hr, rfl⟩ := List.mem_map.mp hx
        exact hall r hr)

/-- Witness for C2 (amended) on two clean requests with distinct ids. -/
theorem request_counts_amended_witness :
    ∃ content : String,
      runRequests
          [⟨"t1", "id1", none, none, "i"⟩, ⟨"t2", "id2", none, none, "i"⟩] none =
        some content ∧ totalOpens content = 2 ∧ uniqueEmails content = 2 := by
  obtain ⟨content, h1, h2, h3, _⟩ :=
    request_counts_amended
      [⟨"t1", "id1", none, none, "i"⟩, ⟨"t2", "id2", none, none, "i"⟩]
      (by decide) (by decide)
  exact ⟨content, h1, by simpa using h2, by simpa using h3 (by decide)⟩

/-- C4 counterexample: with user agent `Mozilla ` (trailing space, no
`'|'`, no newline) the parsed record's user agent is `Mozilla`: the
`strip()` on the read side removes the trailing space, so the round trip
is not the identity as stated. -/
theorem write_parse_roundtrip_counterexample :
    ('|' ∉ "Mozilla ".toList ∧ '\n' ∉ "Mozilla ".toList) ∧
    parseContent (logEntry "2025" "id" "1.2.3.4" "Mozilla ") =
      [⟨"2025", "id", "1.2.3.4", "Mozilla"⟩] ∧
    (⟨"2025", "id", "1.2.3.4", "Mozilla"⟩ : Record) ≠
      ⟨"2025", "id", "1.2.3.4", "Mozilla "⟩ :=
  ⟨by decide, by decide, by decide⟩

/-- C4 amended: the writer/parser round trip is the identity for fields
free of `'|'`, newline and carriage return, provided additionally that
the timestamp does not begin with Python whitespace and the user agent
does not end with it (the read side strips the line ends). -/
theorem write_parse_roundtrip_amended (ts tid ip ua : String)
    (hts : '|' ∉ ts.toList ∧ '\n' ∉ ts.toList ∧ '\r' ∉ ts.toList)
    (htid : '|' ∉ tid.toList ∧ '\n' ∉ tid.toList ∧ '\r' ∉ tid.toList)
    (hip : '|' ∉ ip.toList ∧ '\n' ∉ ip.toList ∧ '\r' ∉ ip.toList)
    (hua : '|' ∉ ua.toList ∧ '\n' ∉ ua.toList ∧ '\r' ∉ ua.toList)
    (hfront : ∀ ch, ts.toList.head? = some ch → isPySpace ch = false)
    (hback : ∀ ch, ua.toList.getLast? = some ch → isPySpace ch = false) :
    parseContent (logEntry ts tid ip ua) = [⟨ts, tid, ip, ua⟩] := by
  have hform : (logEntry ts tid ip ua).toList =
      (ts.toList ++ ('|' :: (tid.toList ++ ('|' :: (ip.toList ++ ('|' :: ua.toList)))))) ++
        ['\n'] := by
    show (ts ++ "|" ++ tid ++ "|" ++ ip ++ "|" ++ ua ++ "\n").data = _
    simp only [String.data_append]
    simp [show ("|" : String).data = ['|'] from rfl,
      show ("\n" : String).data = ['\n'] from rfl]
  have hLnl : '\n' ∉
      ts.toList ++ ('|' :: (tid.toList ++ ('|' :: (ip.toList ++ ('|' :: ua.toList))))) := by
    intro hm
    simp only [List.mem_append, List.mem_cons] at hm
    rcases hm with h1 | h1 | h1 | h1 | h1 | h1 | h1 <;>
      first
        | exact hts.2.1 h1
        | exact htid.2.1 h1
        | exact hip.2.1 h1
        | exact hua.2.1 h1
        | exact absurd h1 (by decide)
  have hLcr : '\r' ∉
      ts.toList ++ ('|' :: (tid.toList ++ ('|' :: (ip.toList ++ ('|' :: ua.toList))))) := by
    intro hm
    simp only [List.mem_append, List.mem_cons] at hm
    rcases hm with h1 | h1 | h1 | h1 | h1 | h1 | h1 <;>
      first
        | exact hts.2.2 h1
        | exact htid.2.2 h1
        | exact hip.2.2 h1
        | exact hua.2.2 h1
        | exact absurd h1 (by decide)
  have hstr : logEntry ts tid ip ua =
      String.mk (joinNL
        [ts.toList ++ ('|' :: (tid.toList ++ ('|' :: (ip.toList ++ ('|' :: ua.toList)))))]) := by
    have h1 : logEntry ts tid ip ua = String.mk ((logEntry ts tid ip ua).toList) := rfl
    rw [h1, hform]
    rfl
  have hread : pyReadlines (logEntry ts tid ip ua) =
      [String.mk
        ((ts.toList ++ ('|' :: (tid.toList ++ ('|' :: (ip.toList ++ ('|' :: ua.toList)))))) ++
          ['\n'])] := by
    rw [hstr, pyReadlines_joinNL]
    · rfl
    · intro ls hls
      simp only [List.mem_singleton] at hls
      subst hls
      exact ⟨hLnl, hLcr⟩
  unfold parseContent
  rw [hread, parseOpens_eq_filterMap]
  have hline : parseLine
      (String.mk
        ((ts.toList ++ ('|' :: (tid.toList ++ ('|' :: (ip.toList ++ ('|' :: ua.toList)))))) ++
          ['\n'])) = some ⟨ts, tid, ip, ua⟩ := by
    have hshape :
        (ts.toList ++ ('|' :: (tid.toList ++ ('|' :: (ip.toList ++ ('|' :: ua.toList)))))) ++
          ['\n'] =
        ts.toList ++ ('|' :: (tid.toList ++
          ('|' :: (ip.toList ++ ('|' :: (ua.toList ++ ['\n'])))))) := by
      simp
    rw [hshape]
    exact parseLine_roundTrip hts.1 htid.1 hip.1 hua.1 hfront hback
  rw [List.filterMap_cons, hline]
  rfl

/-- Witness for C4 (amended) on a concrete well-formed entry. -/
theorem write_parse_roundtrip_amended_witness :
    parseContent (logEntry "2025-12-15T10:00:00" "id7" "1.2.3.4" "Mozilla/5.0") =
      [⟨"2025-12-15T10:00:00", "id7", "1.2.3.4", "Mozilla/5.0"⟩] :=
  write_parse_roundtrip_amended "2025-12-15T10:00:00" "id7" "1.2.3.4" "Mozilla/5.0"
    (by decide) (by decide) (by decide) (by decide)
    (by intro ch hch; injection hch with h2; rw [← h2]; rfl)
    (by intro ch hch; injection hch with h2; rw [← h2]; rfl)

end Tracker
